import Mathlib

/-!
Shallow embedding of the ray tracer in `src/main.rs` (a Rust
"Ray Tracing in One Weekend" implementation over `glam::DVec3`).

Modelling conventions:
* `f64` scalars are modelled as real numbers `ℝ`; `f64::sqrt` is `Real.sqrt`.
* Interval upper bounds are `EReal` so that `f64::INFINITY` (used by the
  integrator's query interval `0.001..f64::INFINITY`) is `⊤`.
* Rust's `Range::contains` (`lo <= t && t < hi`) is `intervalContains`.
* Randomness (`random_unit_vector`, `rng.gen::<f64>()`) is passed in as
  explicit parameters / streams.
* Division by zero follows Lean's junk-value convention `x / 0 = 0`.
-/

noncomputable section
open Classical

/-- 3-component double-precision vector (`glam::DVec3`). -/
@[ext]
structure Vec3 where
  x : ℝ
  y : ℝ
  z : ℝ

instance : Zero Vec3 := ⟨⟨0, 0, 0⟩⟩

instance : Add Vec3 := ⟨fun a b => ⟨a.x + b.x, a.y + b.y, a.z + b.z⟩⟩

instance : Neg Vec3 := ⟨fun a => ⟨-a.x, -a.y, -a.z⟩⟩

instance : Sub Vec3 := ⟨fun a b => ⟨a.x - b.x, a.y - b.y, a.z - b.z⟩⟩

/-- Scalar multiplication `s * v` (`f64 * DVec3`). -/
instance : SMul ℝ Vec3 := ⟨fun s a => ⟨s * a.x, s * a.y, s * a.z⟩⟩

/-- Componentwise product (`DVec3 * DVec3`), used for color attenuation. -/
instance : Mul Vec3 := ⟨fun a b => ⟨a.x * b.x, a.y * b.y, a.z * b.z⟩⟩

/-- `DVec3::dot`. -/
def Vec3.dot (a b : Vec3) : ℝ := a.x * b.x + a.y * b.y + a.z * b.z

/-- `DVec3::length_squared` (dot of the vector with itself). -/
def Vec3.lengthSquared (v : Vec3) : ℝ := v.dot v

/-- `DVec3::length`. -/
def Vec3.length (v : Vec3) : ℝ := Real.sqrt v.lengthSquared

/-- `DVec3::normalize` (`self * self.length().recip()`). -/
def Vec3.normalize (v : Vec3) : Vec3 := (v.length)⁻¹ • v

/-- `DVec3::cross`. -/
def Vec3.cross (a b : Vec3) : Vec3 :=
  ⟨a.y * b.z - a.z * b.y, a.z * b.x - a.x * b.z, a.x * b.y - a.y * b.x⟩

/-- `DVec3::abs_diff_eq(DVec3::ZERO, 1e-8)`: every component within `1e-8`
of zero. -/
def Vec3.nearZero (v : Vec3) : Prop :=
  |v.x| ≤ 1e-8 ∧ |v.y| ≤ 1e-8 ∧ |v.z| ≤ 1e-8

/-- A parametric ray `{origin, direction}`. -/
structure Ray where
  origin : Vec3
  direction : Vec3

/-- `Ray::at`: `origin + t * direction`. -/
def Ray.at (r : Ray) (t : ℝ) : Vec3 := r.origin + t • r.direction

/-- The material tagged union. -/
inductive Material where
  | lambertian (albedo : Vec3)
  | metal (albedo : Vec3) (fuzz : ℝ)
  | dielectric (index_of_refraction : ℝ)

/-- The result of a successful scatter. -/
structure Scattered where
  attenuation : Vec3
  scattered : Ray

/-- Intersection record. `front_face` is a proposition in this embedding
(the Rust `bool` of a real-number comparison). -/
structure HitRecord where
  point : Vec3
  normal : Vec3
  t : ℝ
  front_face : Prop
  material : Material

/-- `HitRecord::calc_face_normal`: front face iff the ray direction opposes
the outward normal; the stored normal is flipped to face the ray. -/
def HitRecord.calc_face_normal (ray : Ray) (outward_normal : Vec3) : Prop × Vec3 :=
  let front_face := ray.direction.dot outward_normal < 0
  (front_face, if front_face then outward_normal else -outward_normal)

/-- `HitRecord::with_face_normal`. -/
def HitRecord.with_face_normal (material : Material) (point : Vec3)
    (outward_normal : Vec3) (t : ℝ) (ray : Ray) : HitRecord :=
  let fn := HitRecord.calc_face_normal ray outward_normal
  { material := material, point := point, normal := fn.2, t := t, front_face := fn.1 }

/-- `reflect`: `v - 2 * v.dot(n) * n`. -/
def reflect (v n : Vec3) : Vec3 := v - (2 * v.dot n) • n

/-- `refract`: perpendicular component scaled by the index ratio, parallel
component `-sqrt(|1 - |r_perp|^2|) * n`. -/
def refract (uv n : Vec3) (etai_over_etat : ℝ) : Vec3 :=
  let cos_theta := min ((-uv).dot n) 1
  let r_out_perp := etai_over_etat • (uv + cos_theta • n)
  let r_out_parallel := (-Real.sqrt |1 - r_out_perp.lengthSquared|) • n
  r_out_perp + r_out_parallel

/-- `reflectance`: Schlick approximation `r0 + (1 - r0) * (1 - cosine)^5`
with `r0 = ((1 - ref_idx) / (1 + ref_idx))^2`. -/
def reflectance (cosine ref_idx : ℝ) : ℝ :=
  let r0 := ((1 - ref_idx) / (1 + ref_idx)) * ((1 - ref_idx) / (1 + ref_idx))
  r0 + (1 - r0) * (1 - cosine) ^ (5 : ℕ)

/-- Dielectric refraction ratio: `1/index` when the hit is front-face,
`index` otherwise. -/
def refractionRatio (front_face : Prop) (index_of_refraction : ℝ) : ℝ :=
  if front_face then index_of_refraction⁻¹ else index_of_refraction

/-- Dielectric `cos_theta = (-unit_direction.dot(normal)).min(1.0)`. -/
def dielCosTheta (unit_direction normal : Vec3) : ℝ :=
  min (-(unit_direction.dot normal)) 1

/-- Dielectric `sin_theta = sqrt(1 - cos_theta * cos_theta)`. -/
def dielSinTheta (unit_direction normal : Vec3) : ℝ :=
  Real.sqrt (1 - dielCosTheta unit_direction normal * dielCosTheta unit_direction normal)

/-- Total-internal-reflection condition `refraction_ratio * sin_theta > 1.0`. -/
def cannotRefract (ratio sin_theta : ℝ) : Prop := ratio * sin_theta > 1

/-- `Material::scatter`. The random inputs are explicit: `ruv` stands for
the `random_unit_vector()` draw (Lambertian and Metal) and `draw` for
`rng.gen::<f64>()` (Dielectric). -/
def Material.scatter (m : Material) (r_in : Ray) (hit_record : HitRecord)
    (ruv : Vec3) (draw : ℝ) : Option Scattered :=
  match m with
  | Material.lambertian albedo =>
      let scatter_direction := hit_record.normal + ruv
      let scatter_direction :=
        if scatter_direction.nearZero then hit_record.normal else scatter_direction
      some ⟨albedo, ⟨hit_record.point, scatter_direction⟩⟩
  | Material.metal albedo fuzz =>
      let reflected := reflect r_in.direction.normalize hit_record.normal
      let scattered : Ray := ⟨hit_record.point, reflected + fuzz • ruv⟩
      if scattered.direction.dot hit_record.normal > 0 then
        some ⟨albedo, scattered⟩
      else
        none
  | Material.dielectric index_of_refraction =>
      let attenuation : Vec3 := ⟨1, 1, 1⟩
      let refraction_ratio := refractionRatio hit_record.front_face index_of_refraction
      let unit_direction := r_in.direction.normalize
      let sin_theta := dielSinTheta unit_direction hit_record.normal
      let direction :=
        if cannotRefract refraction_ratio sin_theta ∨
            reflectance (dielCosTheta unit_direction hit_record.normal) refraction_ratio > draw
        then reflect unit_direction hit_record.normal
        else refract unit_direction hit_record.normal refraction_ratio
      some ⟨attenuation, ⟨hit_record.point, direction⟩⟩

/-- A sphere primitive. -/
structure Sphere where
  center : Vec3
  radius : ℝ
  material : Material

/-- Rust `Range::contains` for the query interval: `lo <= t && t < hi`,
with the upper bound in `EReal` so `f64::INFINITY` is `⊤`. -/
def intervalContains (lo : ℝ) (hi : EReal) (t : ℝ) : Prop :=
  lo ≤ t ∧ (t : EReal) < hi

/-- `oc = ray.origin - self.center` in `Sphere::hit`. -/
def Sphere.oc (s : Sphere) (ray : Ray) : Vec3 := ray.origin - s.center

/-- `a = ray.direction.length_squared()` in `Sphere::hit`. -/
def Sphere.aCoeff (_s : Sphere) (ray : Ray) : ℝ := ray.direction.lengthSquared

/-- `half_b = oc.dot(ray.direction)` in `Sphere::hit`. -/
def Sphere.halfB (s : Sphere) (ray : Ray) : ℝ := (s.oc ray).dot ray.direction

/-- `c = oc.length_squared() - radius * radius` in `Sphere::hit`. -/
def Sphere.cCoeff (s : Sphere) (ray : Ray) : ℝ :=
  (s.oc ray).lengthSquared - s.radius * s.radius

/-- `discriminant = half_b * half_b - a * c` in `Sphere::hit`. -/
def Sphere.disc (s : Sphere) (ray : Ray) : ℝ :=
  s.halfB ray * s.halfB ray - s.aCoeff ray * s.cCoeff ray

/-- `sqrtd = discriminant.sqrt()` in `Sphere::hit`. -/
def Sphere.sqrtd (s : Sphere) (ray : Ray) : ℝ := Real.sqrt (s.disc ray)

/-- The first root tried: `(-half_b - sqrtd) / a`. -/
def Sphere.root1 (s : Sphere) (ray : Ray) : ℝ :=
  (-s.halfB ray - s.sqrtd ray) / s.aCoeff ray

/-- The fallback root: `(-half_b + sqrtd) / a`. -/
def Sphere.root2 (s : Sphere) (ray : Ray) : ℝ :=
  (-s.halfB ray + s.sqrtd ray) / s.aCoeff ray

/-- Record construction at a chosen root in `Sphere::hit`: hit point,
outward normal `(point - center) / radius`, then the face-normal step. -/
def Sphere.mkRec (s : Sphere) (ray : Ray) (root : ℝ) : HitRecord :=
  let t := root
  let point := ray.at t
  let outward_normal := s.radius⁻¹ • (point - s.center)
  HitRecord.with_face_normal s.material point outward_normal t ray

/-- `Sphere::hit`: no hit on negative discriminant; otherwise try the near
root, fall back to the far root, reject if both are outside the interval. -/
def Sphere.hit (s : Sphere) (ray : Ray) (lo : ℝ) (hi : EReal) : Option HitRecord :=
  if s.disc ray < 0 then none
  else if intervalContains lo hi (s.root1 ray) then some (s.mkRec ray (s.root1 ray))
  else if intervalContains lo hi (s.root2 ray) then some (s.mkRec ray (s.root2 ray))
  else none

/-- `HittableList { objects }` (its members are the program's only
primitive, `Sphere`). -/
structure HittableList where
  objects : List Sphere

/-- The closure folded over the members in `HittableList::hit`: query the
member with `interval.start..acc.0`; on a hit, tighten the bound to the new
record's `t` and replace the best record, otherwise keep the accumulator. -/
def hitFold (ray : Ray) (lo : ℝ) (acc : EReal × Option HitRecord) (item : Sphere) :
    EReal × Option HitRecord :=
  match Sphere.hit item ray lo acc.1 with
  | some temp_rec => ((temp_rec.t : EReal), some temp_rec)
  | none => acc

/-- `HittableList::hit`: fold over the members, starting the search bound at
`interval.end`. -/
def HittableList.hit (l : HittableList) (ray : Ray) (lo : ℝ) (hi : EReal) :
    Option HitRecord :=
  (l.objects.foldl (hitFold ray lo) (hi, (none : Option HitRecord))).2

/-- One step of a minimum-`t` selection (earlier record kept on ties). -/
def minTStep (acc : Option HitRecord) (r : HitRecord) : Option HitRecord :=
  match acc with
  | none => some r
  | some b => if r.t < b.t then some r else some b

/-- Pick the hit of minimal `t` from a list of records (earliest on ties). -/
def minTRecord (l : List HitRecord) : Option HitRecord :=
  l.foldl minTStep none

/-- Spec-side description of the closest-hit search (for the refinement
claim): query every member with the full interval and keep the hit of
minimal `t`. -/
def closestHitSpec (objects : List Sphere) (ray : Ray) (lo : ℝ) (hi : EReal) :
    Option HitRecord :=
  minTRecord (objects.filterMap (fun s => s.hit ray lo hi))

/-- The scene abstraction the integrator is generic over
(`T: Hittable` in `Ray::color`): a closest-hit query. -/
def World : Type := Ray → ℝ → EReal → Option HitRecord

/-- `Ray::color`: black on exhausted depth; otherwise query the scene on
`0.001..f64::INFINITY`; on a hit, scatter and recurse with `depth - 1`
(black on absorption); on a miss, the sky gradient. The random stream
`rnd` supplies one `(random_unit_vector, rng.gen)` pair per bounce. -/
def Ray.color (r : Ray) (depth : ℤ) (world : World) (rnd : ℕ → Vec3 × ℝ) : Vec3 :=
  if _h : depth ≤ 0 then ⟨0, 0, 0⟩
  else
    match world r 0.001 ⊤ with
    | some hrec =>
      match hrec.material.scatter r hrec (rnd 0).1 (rnd 0).2 with
      | some s =>
          s.attenuation * Ray.color s.scattered (depth - 1) world (fun n => rnd (n + 1))
      | none => ⟨0, 0, 0⟩
    | none =>
      let unit_direction := r.direction.normalize
      let a := 0.5 * (unit_direction.y + 1.0)
      (1.0 - a) • (⟨1, 1, 1⟩ : Vec3) + a • (⟨0.5, 0.7, 1.0⟩ : Vec3)
termination_by depth.toNat
decreasing_by omega

/-- Fueled variant of `Ray.color` used to state the recursion-depth bound:
`none` when the fuel runs out before the recursion bottoms out. -/
def Ray.colorFuel (r : Ray) (fuel : ℕ) (depth : ℤ) (world : World)
    (rnd : ℕ → Vec3 × ℝ) : Option Vec3 :=
  if depth ≤ 0 then some ⟨0, 0, 0⟩
  else
    match fuel with
    | 0 => none
    | fuel + 1 =>
      match world r 0.001 ⊤ with
      | some hrec =>
        match hrec.material.scatter r hrec (rnd 0).1 (rnd 0).2 with
        | some s =>
            (Ray.colorFuel s.scattered fuel (depth - 1) world (fun n => rnd (n + 1))).map
              (fun c => s.attenuation * c)
        | none => some ⟨0, 0, 0⟩
      | none =>
        let unit_direction := r.direction.normalize
        let a := 0.5 * (unit_direction.y + 1.0)
        some ((1.0 - a) • (⟨1, 1, 1⟩ : Vec3) + a • (⟨0.5, 0.7, 1.0⟩ : Vec3))

/-- Rust `as u32` cast from `f64` (on real inputs): truncate toward zero,
saturating at the bounds of `u32`. -/
def f64AsU32 (v : ℝ) : ℕ := min (max ⌊v⌋ 0).toNat (2 ^ 32 - 1)

/-- The camera bundle; field names follow the source. -/
structure Camera where
  image_width : ℕ
  image_height : ℕ
  max_value : ℕ
  aspectRatio : ℝ
  center : Vec3
  pixel_delta_u : Vec3
  pixel_delta_v : Vec3
  pixel00_loc : Vec3
  samples_per_pixel : ℕ
  max_depth : ℕ
  vfov : ℝ
  lookfrom : Vec3
  lookat : Vec3
  vup : Vec3
  u : Vec3
  v : Vec3
  w : Vec3

/-- `Camera::new`: unconditionally computes the derived viewport state from
the inputs (no validation anywhere in the source). -/
def Camera.new (image_width : ℕ) (aspectRatio : ℝ) (look_from look_at vup_opt : Option Vec3) :
    Camera :=
  let lookfrom := look_from.getD ⟨0, 0, -1⟩
  let lookat := look_at.getD 0
  let vup := vup_opt.getD ⟨0, 1, 0⟩
  let max_value : ℕ := 255
  let image_height : ℕ := f64AsU32 ((image_width : ℝ) / aspectRatio)
  let focal_length : ℝ := (lookfrom - lookat).length
  let vfov : ℝ := 20
  let theta := vfov * Real.pi / 180
  let h := Real.tan (theta / 2)
  let viewport_height := 2 * h * focal_length
  let viewport_width : ℝ := viewport_height * ((image_width : ℝ) / (image_height : ℝ))
  let center : Vec3 := lookfrom
  let w := (lookfrom - lookat).normalize
  let u := (vup.cross w).normalize
  let v := w.cross u
  let viewport_u := viewport_width • u
  let viewport_v := viewport_height • (-v)
  let pixel_delta_u : Vec3 := (image_width : ℝ)⁻¹ • viewport_u
  let pixel_delta_v : Vec3 := (image_height : ℝ)⁻¹ • viewport_v
  let viewport_upper_left : Vec3 :=
    center - focal_length • w - (2 : ℝ)⁻¹ • viewport_u - (2 : ℝ)⁻¹ • viewport_v
  let pixel00_loc : Vec3 := viewport_upper_left + (0.5 : ℝ) • (pixel_delta_u + pixel_delta_v)
  { image_width := image_width
    image_height := image_height
    max_value := max_value
    aspectRatio := aspectRatio
    center := center
    pixel_delta_u := pixel_delta_u
    pixel_delta_v := pixel_delta_v
    pixel00_loc := pixel00_loc
    samples_per_pixel := 100
    max_depth := 50
    vfov := vfov
    lookfrom := lookfrom
    lookat := lookat
    vup := vup
    u := u
    v := v
    w := w }

/-! ## Helper lemmas -/

@[simp] theorem Vec3.zero_x : (0 : Vec3).x = 0 := rfl

@[simp] theorem Vec3.zero_y : (0 : Vec3).y = 0 := rfl

@[simp] theorem Vec3.zero_z : (0 : Vec3).z = 0 := rfl

@[simp] theorem Vec3.add_x (a b : Vec3) : (a + b).x = a.x + b.x := rfl

@[simp] theorem Vec3.add_y (a b : Vec3) : (a + b).y = a.y + b.y := rfl

@[simp] theorem Vec3.add_z (a b : Vec3) : (a + b).z = a.z + b.z := rfl

@[simp] theorem Vec3.neg_x (a : Vec3) : (-a).x = -a.x := rfl

@[simp] theorem Vec3.neg_y (a : Vec3) : (-a).y = -a.y := rfl

@[simp] theorem Vec3.neg_z (a : Vec3) : (-a).z = -a.z := rfl

@[simp] theorem Vec3.sub_x (a b : Vec3) : (a - b).x = a.x - b.x := rfl

@[simp] theorem Vec3.sub_y (a b : Vec3) : (a - b).y = a.y - b.y := rfl

@[simp] theorem Vec3.sub_z (a b : Vec3) : (a - b).z = a.z - b.z := rfl

@[simp] theorem Vec3.smul_x (s : ℝ) (a : Vec3) : (s • a).x = s * a.x := rfl

@[simp] theorem Vec3.smul_y (s : ℝ) (a : Vec3) : (s • a).y = s * a.y := rfl

@[simp] theorem Vec3.smul_z (s : ℝ) (a : Vec3) : (s • a).z = s * a.z := rfl

@[simp] theorem Vec3.mul_x (a b : Vec3) : (a * b).x = a.x * b.x := rfl

@[simp] theorem Vec3.mul_y (a b : Vec3) : (a * b).y = a.y * b.y := rfl

@[simp] theorem Vec3.mul_z (a b : Vec3) : (a * b).z = a.z * b.z := rfl

theorem Vec3.dot_comm (a b : Vec3) : a.dot b = b.dot a := by
  simp [Vec3.dot]; ring

theorem Vec3.lengthSquared_nonneg (v : Vec3) : 0 ≤ v.lengthSquared := by
  simp only [Vec3.lengthSquared, Vec3.dot]
  nlinarith [sq_nonneg v.x, sq_nonneg v.y, sq_nonneg v.z]

theorem Vec3.neg_dot (a b : Vec3) : (-a).dot b = -(a.dot b) := by
  simp [Vec3.dot]; ring

@[simp] theorem Sphere.mkRec_t (s : Sphere) (ray : Ray) (root : ℝ) :
    (s.mkRec ray root).t = root := rfl

theorem Sphere.aCoeff_nonneg (s : Sphere) (ray : Ray) : 0 ≤ s.aCoeff ray :=
  Vec3.lengthSquared_nonneg _

theorem Sphere.sqrtd_nonneg (s : Sphere) (ray : Ray) : 0 ≤ s.sqrtd ray :=
  Real.sqrt_nonneg _

theorem Sphere.root1_le_root2 (s : Sphere) (ray : Ray) : s.root1 ray ≤ s.root2 ray := by
  unfold Sphere.root1 Sphere.root2
  rcases eq_or_lt_of_le (s.aCoeff_nonneg ray) with h0 | hpos
  · rw [← h0]
    simp
  · have hs := s.sqrtd_nonneg ray
    exact (div_le_div_iff_of_pos_right hpos).mpr (by linarith)

theorem Sphere.hit_t_mem {s : Sphere} {ray : Ray} {lo : ℝ} {hi : EReal} {r : HitRecord}
    (h : s.hit ray lo hi = some r) : intervalContains lo hi r.t := by
  unfold Sphere.hit at h
  split_ifs at h with h1 h2 h3
  · cases h
    simpa using h2
  · cases h
    simpa using h3

theorem intervalContains_of_narrow {lo : ℝ} {hi hi' : EReal} (hle : hi' ≤ hi) (t : ℝ) :
    intervalContains lo hi' t ↔ intervalContains lo hi t ∧ (t : EReal) < hi' := by
  unfold intervalContains
  constructor
  · rintro ⟨h1, h2⟩
    exact ⟨⟨h1, lt_of_lt_of_le h2 hle⟩, h2⟩
  · rintro ⟨⟨h1, _⟩, h2⟩
    exact ⟨h1, h2⟩

/-- Narrowing the upper query bound of `Sphere::hit` keeps the same record
when its `t` is still below the new bound, and rejects it otherwise. -/
theorem Sphere.hit_restrict (s : Sphere) (ray : Ray) (lo : ℝ) {hi hi' : EReal}
    (hle : hi' ≤ hi) :
    s.hit ray lo hi' =
      (s.hit ray lo hi).bind (fun r => if (r.t : EReal) < hi' then some r else none) := by
  by_cases hd : s.disc ray < 0
  · simp [Sphere.hit, hd]
  · by_cases h1' : intervalContains lo hi' (s.root1 ray)
    · have h1 := (intervalContains_of_narrow hle _).1 h1'
      simp [Sphere.hit, hd, h1', h1.1, h1.2]
    · by_cases h1 : intervalContains lo hi (s.root1 ray)
      · have hn1 : ¬ (((s.root1 ray) : EReal) < hi') := fun hlt => h1' ⟨h1.1, hlt⟩
        have hn2 : ¬ intervalContains lo hi' (s.root2 ray) := by
          rintro ⟨_, hlt2⟩
          exact h1' ⟨h1.1, lt_of_le_of_lt (EReal.coe_le_coe_iff.2 (s.root1_le_root2 ray)) hlt2⟩
        simp [Sphere.hit, hd, h1', h1, hn1, hn2]
      · by_cases h2' : intervalContains lo hi' (s.root2 ray)
        · have h2 := (intervalContains_of_narrow hle _).1 h2'
          simp [Sphere.hit, hd, h1', h1, h2', h2.1, h2.2]
        · by_cases h2 : intervalContains lo hi (s.root2 ray)
          · have hn2 : ¬ (((s.root2 ray) : EReal) < hi') := fun hlt => h2' ⟨h2.1, hlt⟩
            simp [Sphere.hit, hd, h1', h1, h2', h2, hn2]
          · simp [Sphere.hit, hd, h1', h1, h2', h2]

/-- C2: for every ray and sphere, `Sphere::hit` returns none when the
discriminant `half_b^2 - a*c` is negative; otherwise it accepts the near
root `(-half_b - sqrt(disc))/a` when it lies in the query interval, falls
back to the far root `(-half_b + sqrt(disc))/a` only when the near root is
outside, returns none when both are outside, and the returned record's `t`
is the chosen root (the near root is never larger than the far root). -/
theorem sphere_hit_root_selection (s : Sphere) (ray : Ray) (lo : ℝ) (hi : EReal) :
    (s.disc ray < 0 → s.hit ray lo hi = none) ∧
    (0 ≤ s.disc ray → intervalContains lo hi (s.root1 ray) →
      (s.hit ray lo hi).map HitRecord.t = some (s.root1 ray)) ∧
    (0 ≤ s.disc ray → ¬ intervalContains lo hi (s.root1 ray) →
      intervalContains lo hi (s.root2 ray) →
      (s.hit ray lo hi).map HitRecord.t = some (s.root2 ray)) ∧
    (¬ intervalContains lo hi (s.root1 ray) → ¬ intervalContains lo hi (s.root2 ray) →
      s.hit ray lo hi = none) ∧
    s.root1 ray ≤ s.root2 ray := by
  refine ⟨fun hd => ?_, fun hd0 h1 => ?_, fun hd0 h1 h2 => ?_, fun h1 h2 => ?_,
    s.root1_le_root2 ray⟩
  · simp [Sphere.hit, hd]
  · simp [Sphere.hit, not_lt.2 hd0, h1]
  · simp [Sphere.hit, not_lt.2 hd0, h1, h2]
  · simp [Sphere.hit, h1, h2]

/-- Witness for C2 at a concrete miss: a unit sphere at the origin and a ray
at `(5,0,0)` pointing along `+y` has discriminant `-24 < 0`, so no hit. -/
theorem sphere_hit_root_selection_witness :
    Sphere.hit ⟨⟨0, 0, 0⟩, 1, Material.lambertian ⟨0, 0, 0⟩⟩ ⟨⟨5, 0, 0⟩, ⟨0, 1, 0⟩⟩ 0 ⊤ =
      none :=
  (sphere_hit_root_selection ⟨⟨0, 0, 0⟩, 1, Material.lambertian ⟨0, 0, 0⟩⟩
      ⟨⟨5, 0, 0⟩, ⟨0, 1, 0⟩⟩ 0 ⊤).1
    (by norm_num [Sphere.disc, Sphere.halfB, Sphere.aCoeff, Sphere.cCoeff, Sphere.oc,
      Vec3.dot, Vec3.lengthSquared])

theorem foldl_minTStep_some (l : List HitRecord) (b : HitRecord) :
    ∃ r, l.foldl minTStep (some b) = some r ∧ (r = b ∨ r ∈ l) ∧ r.t ≤ b.t ∧
      ∀ x ∈ l, r.t ≤ x.t := by
  induction l generalizing b with
  | nil => exact ⟨b, rfl, Or.inl rfl, le_refl _, by simp⟩
  | cons a l ih =>
    by_cases hab : a.t < b.t
    · obtain ⟨r, heq, hmem, hle, hall⟩ := ih a
      refine ⟨r, ?_, ?_, hle.trans hab.le, ?_⟩
      · simpa [minTStep, hab] using heq
      · rcases hmem with h | h
        · exact Or.inr (by simp [h])
        · exact Or.inr (List.mem_cons_of_mem _ h)
      · intro x hx
        rcases List.mem_cons.1 hx with h | h
        · exact h ▸ hle
        · exact hall x h
    · obtain ⟨r, heq, hmem, hle, hall⟩ := ih b
      refine ⟨r, ?_, ?_, hle, ?_⟩
      · simpa [minTStep, hab] using heq
      · rcases hmem with h | h
        · exact Or.inl h
        · exact Or.inr (List.mem_cons_of_mem _ h)
      · intro x hx
        rcases List.mem_cons.1 hx with h | h
        · exact h ▸ hle.trans (not_lt.1 hab)
        · exact hall x h

/-- Along the fold of `HittableList::hit`, once a best record `r` is held the
rest of the search behaves like a minimum-`t` selection over the members'
full-interval hits. -/
theorem foldl_hitFold_some (ray : Ray) (lo : ℝ) (hi : EReal) (objs : List Sphere)
    (r : HitRecord) (hr : intervalContains lo hi r.t) :
    (objs.foldl (hitFold ray lo) ((r.t : EReal), some r)).2 =
      (objs.filterMap (fun s => s.hit ray lo hi)).foldl minTStep (some r) := by
  induction objs generalizing r with
  | nil => rfl
  | cons s objs ih =>
    have hle : ((r.t : EReal)) ≤ hi := hr.2.le
    have hres := s.hit_restrict ray lo hle
    cases h : s.hit ray lo hi with
    | none =>
      have hnone : s.hit ray lo (r.t : EReal) = none := by rw [hres, h]; rfl
      simp only [List.foldl_cons, hitFold, hnone, List.filterMap_cons, h]
      exact ih r hr
    | some r' =>
      by_cases hlt : r'.t < r.t
      · have hsome : s.hit ray lo (r.t : EReal) = some r' := by
          rw [hres, h]
          simp [EReal.coe_lt_coe_iff, hlt]
        simp only [List.foldl_cons, hitFold, hsome, List.filterMap_cons, h,
          minTStep, if_pos hlt]
        exact ih r' (Sphere.hit_t_mem h)
      · have hnone : s.hit ray lo (r.t : EReal) = none := by
          rw [hres, h]
          simp [EReal.coe_lt_coe_iff, hlt]
        simp only [List.foldl_cons, hitFold, hnone, List.filterMap_cons, h,
          minTStep, if_neg hlt]
        exact ih r hr

/-- The fold of `HittableList::hit` computes the minimum-`t` selection over
all members queried with the full interval. -/
theorem hit_fold_eq_minT (ray : Ray) (lo : ℝ) (hi : EReal) (objs : List Sphere) :
    (objs.foldl (hitFold ray lo) (hi, (none : Option HitRecord))).2 =
      minTRecord (objs.filterMap (fun s => s.hit ray lo hi)) := by
  induction objs with
  | nil => rfl
  | cons s objs ih =>
    cases h : s.hit ray lo hi with
    | none =>
      simp only [List.foldl_cons, hitFold, h, List.filterMap_cons]
      exact ih
    | some r =>
      simp only [List.foldl_cons, hitFold, h, List.filterMap_cons, minTRecord, minTStep]
      exact foldl_hitFold_some ray lo hi objs r (Sphere.hit_t_mem h)

/-- `HittableList::hit` equals the spec-side minimum-`t` selection. -/
theorem HittableList.hit_eq_spec (L : HittableList) (ray : Ray) (lo : ℝ) (hi : EReal) :
    L.hit ray lo hi = closestHitSpec L.objects ray lo hi :=
  hit_fold_eq_minT ray lo hi L.objects

theorem closestHitSpec_none_iff (objs : List Sphere) (ray : Ray) (lo : ℝ) (hi : EReal) :
    closestHitSpec objs ray lo hi = none ↔ ∀ s ∈ objs, s.hit ray lo hi = none := by
  unfold closestHitSpec minTRecord
  cases hfm : objs.filterMap (fun s => s.hit ray lo hi) with
  | nil =>
    simp only [List.foldl_nil]
    exact ⟨fun _ => List.filterMap_eq_nil_iff.1 hfm, fun _ => trivial⟩
  | cons a rest =>
    obtain ⟨r, heq, _, _, _⟩ := foldl_minTStep_some rest a
    constructor
    · intro hcontra
      rw [List.foldl_cons] at hcontra
      simp only [minTStep] at hcontra
      rw [heq] at hcontra
      cases hcontra
    · intro hall
      have : a ∈ objs.filterMap (fun s => s.hit ray lo hi) := by
        rw [hfm]; exact List.mem_cons_self a rest
      obtain ⟨s, hs, hhit⟩ := List.mem_filterMap.1 this
      rw [hall s hs] at hhit
      cases hhit

theorem closestHitSpec_some {objs : List Sphere} {ray : Ray} {lo : ℝ} {hi : EReal}
    {r : HitRecord} (hr : closestHitSpec objs ray lo hi = some r) :
    (∃ s ∈ objs, s.hit ray lo hi = some r) ∧ intervalContains lo hi r.t ∧
      ∀ s ∈ objs, ∀ r', s.hit ray lo hi = some r' → r.t ≤ r'.t := by
  unfold closestHitSpec minTRecord at hr
  cases hfm : objs.filterMap (fun s => s.hit ray lo hi) with
  | nil =>
    rw [hfm] at hr
    cases hr
  | cons a rest =>
    rw [hfm, List.foldl_cons] at hr
    simp only [minTStep] at hr
    obtain ⟨r0, heq, hmem, hle, hall⟩ := foldl_minTStep_some rest a
    rw [heq] at hr
    have hr0 : r0 = r := Option.some.inj hr
    subst hr0
    have hmem' : r0 ∈ a :: rest := by
      rcases hmem with h | h
      · simp [h]
      · exact List.mem_cons_of_mem _ h
    have hmemf : r0 ∈ objs.filterMap (fun s => s.hit ray lo hi) := by
      rw [hfm]; exact hmem'
    obtain ⟨s, hs, hhit⟩ := List.mem_filterMap.1 hmemf
    refine ⟨⟨s, hs, hhit⟩, Sphere.hit_t_mem hhit, ?_⟩
    intro s' hs' r' hhit'
    have : r' ∈ a :: rest := by
      rw [← hfm]
      exact List.mem_filterMap.2 ⟨s', hs', hhit'⟩
    rcases List.mem_cons.1 this with h | h
    · exact h ▸ hle
    · exact hall r' h

/-- C1: `HittableList::hit` with its bound-tightening fold equals the spec's
description — query every member with the full interval and take the
minimum-`t` hit; it returns none exactly when no member intersects within
the interval (in particular for the empty list), and any returned record is
a member's hit, lies inside the interval, and has the smallest `t` among all
member hits. -/
theorem hittable_list_closest_hit (L : HittableList) (ray : Ray) (lo : ℝ) (hi : EReal) :
    L.hit ray lo hi = closestHitSpec L.objects ray lo hi ∧
    (L.hit ray lo hi = none ↔ ∀ s ∈ L.objects, s.hit ray lo hi = none) ∧
    ∀ r, L.hit ray lo hi = some r →
      (∃ s ∈ L.objects, s.hit ray lo hi = some r) ∧ intervalContains lo hi r.t ∧
      ∀ s ∈ L.objects, ∀ r', s.hit ray lo hi = some r' → r.t ≤ r'.t := by
  have hspec := L.hit_eq_spec ray lo hi
  refine ⟨hspec, ?_, fun r hr => closestHitSpec_some (hspec ▸ hr)⟩
  rw [hspec]
  exact closestHitSpec_none_iff L.objects ray lo hi

/-- Witness for C1: one concrete sphere and ray (unit sphere at the origin,
ray from `(5,0,0)` along `+y`); the fold agrees with the minimum-`t` spec
and the none case holds since the member misses. -/
theorem hittable_list_closest_hit_witness :
    HittableList.hit ⟨[⟨⟨0, 0, 0⟩, 1, Material.lambertian ⟨0, 0, 0⟩⟩]⟩
        ⟨⟨5, 0, 0⟩, ⟨0, 1, 0⟩⟩ 0 ⊤ =
      closestHitSpec [⟨⟨0, 0, 0⟩, 1, Material.lambertian ⟨0, 0, 0⟩⟩]
        ⟨⟨5, 0, 0⟩, ⟨0, 1, 0⟩⟩ 0 ⊤ :=
  (hittable_list_closest_hit ⟨[⟨⟨0, 0, 0⟩, 1, Material.lambertian ⟨0, 0, 0⟩⟩]⟩
    ⟨⟨5, 0, 0⟩, ⟨0, 1, 0⟩⟩ 0 ⊤).1

theorem calc_face_normal_dot (ray : Ray) (outward : Vec3) :
    (HitRecord.calc_face_normal ray outward).2.dot ray.direction ≤ 0 := by
  simp only [HitRecord.calc_face_normal]
  by_cases h : ray.direction.dot outward < 0
  · rw [if_pos h, Vec3.dot_comm]
    exact h.le
  · rw [if_neg h, Vec3.neg_dot, Vec3.dot_comm]
    linarith [not_lt.1 h]

theorem Sphere.hit_some_exists_root {s : Sphere} {ray : Ray} {lo : ℝ} {hi : EReal}
    {r : HitRecord} (h : s.hit ray lo hi = some r) :
    ∃ root, r = s.mkRec ray root := by
  unfold Sphere.hit at h
  split_ifs at h
  · exact ⟨s.root1 ray, (Option.some.inj h).symm⟩
  · exact ⟨s.root2 ray, (Option.some.inj h).symm⟩

/-- C3: `calc_face_normal` sets `front_face` exactly when the ray direction
opposes the outward normal and always orients the stored normal against the
ray (`dot(normal, direction) <= 0`); consequently every record produced by
`Sphere::hit` (whose outward normal is `(point - center)/radius`) and by
`HittableList::hit` satisfies the invariant. -/
theorem hit_record_normal_invariant (ray : Ray) :
    (∀ outward_normal : Vec3,
      ((HitRecord.calc_face_normal ray outward_normal).1 ↔
        ray.direction.dot outward_normal < 0) ∧
      (HitRecord.calc_face_normal ray outward_normal).2.dot ray.direction ≤ 0) ∧
    (∀ (s : Sphere) (lo : ℝ) (hi : EReal) (r : HitRecord), s.hit ray lo hi = some r →
      r.normal.dot ray.direction ≤ 0 ∧
      (r.front_face ↔ ray.direction.dot (s.radius⁻¹ • (ray.at r.t - s.center)) < 0)) ∧
    (∀ (L : HittableList) (lo : ℝ) (hi : EReal) (r : HitRecord),
      L.hit ray lo hi = some r → r.normal.dot ray.direction ≤ 0) := by
  have hsphere : ∀ (s : Sphere) (lo : ℝ) (hi : EReal) (r : HitRecord),
      s.hit ray lo hi = some r →
      r.normal.dot ray.direction ≤ 0 ∧
      (r.front_face ↔ ray.direction.dot (s.radius⁻¹ • (ray.at r.t - s.center)) < 0) := by
    intro s lo hi r h
    obtain ⟨root, rfl⟩ := Sphere.hit_some_exists_root h
    exact ⟨calc_face_normal_dot ray _, Iff.rfl⟩
  refine ⟨fun outward_normal => ⟨Iff.rfl, calc_face_normal_dot ray outward_normal⟩,
    hsphere, ?_⟩
  intro L lo hi r h
  obtain ⟨⟨s, hs, hhit⟩, _, _⟩ := closestHitSpec_some ((L.hit_eq_spec ray lo hi) ▸ h)
  exact (hsphere s lo hi r hhit).1

/-- Witness for C3: the sphere of radius 1 at `(0,0,3)` hit by the ray from
the origin along `+z` at `t = 2`; the stored normal faces against the ray. -/
theorem hit_record_normal_invariant_witness :
    ((Sphere.mk ⟨0, 0, 3⟩ 1 (Material.lambertian ⟨0, 0, 0⟩)).mkRec
        ⟨⟨0, 0, 0⟩, ⟨0, 0, 1⟩⟩ 2).normal.dot (⟨0, 0, 1⟩ : Vec3) ≤ 0 := by
  have hdisc : (Sphere.mk ⟨0, 0, 3⟩ 1 (Material.lambertian ⟨0, 0, 0⟩)).disc
      ⟨⟨0, 0, 0⟩, ⟨0, 0, 1⟩⟩ = 1 := by
    norm_num [Sphere.disc, Sphere.halfB, Sphere.aCoeff, Sphere.cCoeff, Sphere.oc,
      Vec3.dot, Vec3.lengthSquared]
  have hroot : (Sphere.mk ⟨0, 0, 3⟩ 1 (Material.lambertian ⟨0, 0, 0⟩)).root1
      ⟨⟨0, 0, 0⟩, ⟨0, 0, 1⟩⟩ = 2 := by
    rw [Sphere.root1, Sphere.sqrtd, hdisc]
    norm_num [Sphere.halfB, Sphere.aCoeff, Sphere.oc, Vec3.dot, Vec3.lengthSquared]
  have hhit : (Sphere.mk ⟨0, 0, 3⟩ 1 (Material.lambertian ⟨0, 0, 0⟩)).hit
      ⟨⟨0, 0, 0⟩, ⟨0, 0, 1⟩⟩ 0 ⊤ =
      some ((Sphere.mk ⟨0, 0, 3⟩ 1 (Material.lambertian ⟨0, 0, 0⟩)).mkRec
        ⟨⟨0, 0, 0⟩, ⟨0, 0, 1⟩⟩ 2) := by
    rw [Sphere.hit, hdisc, if_neg (by norm_num), if_pos]
    · rw [hroot]
    · rw [hroot]
      exact ⟨by norm_num, by simp⟩
  exact ((hit_record_normal_invariant ⟨⟨0, 0, 0⟩, ⟨0, 0, 1⟩⟩).2.1
    (Sphere.mk ⟨0, 0, 3⟩ 1 (Material.lambertian ⟨0, 0, 0⟩)) 0 ⊤ _ hhit).1

theorem Vec3.normalize_unitX : (⟨1, 0, 0⟩ : Vec3).normalize = ⟨1, 0, 0⟩ := by
  have h1 : ((⟨1, 0, 0⟩ : Vec3)).lengthSquared = 1 := by
    norm_num [Vec3.lengthSquared, Vec3.dot]
  have h2 : ((⟨1, 0, 0⟩ : Vec3)).length = 1 := by
    rw [Vec3.length, h1, Real.sqrt_one]
  ext <;> simp [Vec3.normalize, h2]

/-- C6: Lambertian scatter always succeeds with attenuation the albedo; the
scattered direction is `normal + random_unit_vector()`, except that a
near-zero sum (componentwise within `1e-8` of zero) falls back to the
normal itself. -/
theorem lambertian_scatter_total (albedo : Vec3) (r_in : Ray) (hit_record : HitRecord)
    (ruv : Vec3) (draw : ℝ) :
    ∃ s, (Material.lambertian albedo).scatter r_in hit_record ruv draw = some s ∧
      s.attenuation = albedo ∧
      s.scattered.origin = hit_record.point ∧
      ((hit_record.normal + ruv).nearZero → s.scattered.direction = hit_record.normal) ∧
      (¬ (hit_record.normal + ruv).nearZero →
        s.scattered.direction = hit_record.normal + ruv) := by
  refine ⟨⟨albedo, ⟨hit_record.point,
    if (hit_record.normal + ruv).nearZero then hit_record.normal
    else hit_record.normal + ruv⟩⟩, rfl, rfl, rfl, fun h => ?_, fun h => ?_⟩
  · simp [if_pos h]
  · simp [if_neg h]

/-- Witness for C6 at a concrete hit: normal `(0,1,0)` and random unit
vector `(0,1,0)` sum to `(0,2,0)`, which is not near zero, so the scattered
direction is the sum and the attenuation is the albedo. -/
theorem lambertian_scatter_total_witness :
    ∃ s, (Material.lambertian ⟨1, 0, 0⟩).scatter ⟨⟨0, 0, 0⟩, ⟨0, 0, 1⟩⟩
        ⟨⟨0, 0, 0⟩, ⟨0, 1, 0⟩, 0, True, Material.lambertian ⟨1, 0, 0⟩⟩ ⟨0, 1, 0⟩ 0 =
        some s ∧
      s.attenuation = ⟨1, 0, 0⟩ ∧
      s.scattered.direction = (⟨0, 1, 0⟩ : Vec3) + ⟨0, 1, 0⟩ := by
  obtain ⟨s, h1, h2, _, _, h5⟩ := lambertian_scatter_total ⟨1, 0, 0⟩
    ⟨⟨0, 0, 0⟩, ⟨0, 0, 1⟩⟩ ⟨⟨0, 0, 0⟩, ⟨0, 1, 0⟩, 0, True, Material.lambertian ⟨1, 0, 0⟩⟩
    ⟨0, 1, 0⟩ 0
  refine ⟨s, h1, h2, h5 ?_⟩
  norm_num [Vec3.nearZero]

/-- C5: Metal scatter absorbs (returns none) exactly when the perturbed
reflection `reflect(unit(incoming), normal) + fuzz * random_unit_vector`
ends up with `dot(scattered, normal) <= 0`; on success the attenuation is
the albedo and the scattered direction is exactly that perturbed reflection. -/
theorem metal_scatter_absorb_iff (albedo : Vec3) (fuzz : ℝ) (r_in : Ray)
    (hit_record : HitRecord) (ruv : Vec3) (draw : ℝ) :
    ((Material.metal albedo fuzz).scatter r_in hit_record ruv draw = none ↔
      (reflect r_in.direction.normalize hit_record.normal + fuzz • ruv).dot
        hit_record.normal ≤ 0) ∧
    ∀ s, (Material.metal albedo fuzz).scatter r_in hit_record ruv draw = some s →
      s.attenuation = albedo ∧
      s.scattered.direction =
        reflect r_in.direction.normalize hit_record.normal + fuzz • ruv := by
  by_cases h : (reflect r_in.direction.normalize hit_record.normal + fuzz • ruv).dot
      hit_record.normal > 0
  · constructor
    · exact iff_of_false (by simp [Material.scatter, h]) (not_le.2 h)
    · intro s hs
      simp only [Material.scatter, if_pos h, Option.some.injEq] at hs
      rw [← hs]
      exact ⟨rfl, rfl⟩
  · constructor
    · exact iff_of_true (by simp [Material.scatter, h]) (not_lt.1 h)
    · intro s hs
      simp [Material.scatter, h] at hs

/-- Witness for C5 at a concrete mirror hit: incoming `(1,0,0)` against
normal `(-1,0,0)` with `fuzz = 0` reflects to `(-1,0,0)`, is on the correct
side, and the returned attenuation and direction are as stated. -/
theorem metal_scatter_absorb_iff_witness :
    (Scattered.mk ⟨1, 1, 1⟩ ⟨⟨0, 0, 0⟩,
        reflect (Vec3.normalize ⟨1, 0, 0⟩) ⟨-1, 0, 0⟩ + (0 : ℝ) • (⟨0, 0, 0⟩ : Vec3)⟩
      ).attenuation = ⟨1, 1, 1⟩ ∧
    (Scattered.mk ⟨1, 1, 1⟩ ⟨⟨0, 0, 0⟩,
        reflect (Vec3.normalize ⟨1, 0, 0⟩) ⟨-1, 0, 0⟩ + (0 : ℝ) • (⟨0, 0, 0⟩ : Vec3)⟩
      ).scattered.direction =
      reflect (Vec3.normalize ⟨1, 0, 0⟩) ⟨-1, 0, 0⟩ + (0 : ℝ) • (⟨0, 0, 0⟩ : Vec3) := by
  have hrefl : reflect (Vec3.normalize ⟨1, 0, 0⟩) ⟨-1, 0, 0⟩ = ⟨-1, 0, 0⟩ := by
    rw [Vec3.normalize_unitX]
    ext <;> norm_num [reflect, Vec3.dot]
  have hpos : (reflect (Vec3.normalize ⟨1, 0, 0⟩) ⟨-1, 0, 0⟩ +
      (0 : ℝ) • (⟨0, 0, 0⟩ : Vec3)).dot ⟨-1, 0, 0⟩ > 0 := by
    rw [hrefl]
    norm_num [Vec3.dot]
  exact (metal_scatter_absorb_iff ⟨1, 1, 1⟩ 0 ⟨⟨0, 0, 0⟩, ⟨1, 0, 0⟩⟩
    ⟨⟨0, 0, 0⟩, ⟨-1, 0, 0⟩, 0, True, Material.metal ⟨1, 1, 1⟩ 0⟩ ⟨0, 0, 0⟩ 0).2 _
    (by simp only [Material.scatter, if_pos hpos])

/-- C4: Dielectric scatter always succeeds with attenuation `(1,1,1)`; the
refraction ratio is `1/index` on a front face and `index` otherwise; and
under total internal reflection (`ratio * sin_theta > 1`) the scattered
direction is the specular reflection of the normalized incoming direction,
for every random draw. -/
theorem dielectric_scatter_spec (ior : ℝ) (r_in : Ray) (hit_record : HitRecord)
    (ruv : Vec3) (draw : ℝ) :
    (∃ s, (Material.dielectric ior).scatter r_in hit_record ruv draw = some s ∧
      s.attenuation = ⟨1, 1, 1⟩) ∧
    (hit_record.front_face → refractionRatio hit_record.front_face ior = ior⁻¹) ∧
    (¬ hit_record.front_face → refractionRatio hit_record.front_face ior = ior) ∧
    (cannotRefract (refractionRatio hit_record.front_face ior)
        (dielSinTheta r_in.direction.normalize hit_record.normal) →
      ∀ s, (Material.dielectric ior).scatter r_in hit_record ruv draw = some s →
        s.scattered.direction = reflect r_in.direction.normalize hit_record.normal) := by
  refine ⟨⟨_, rfl, rfl⟩, fun h => by rw [refractionRatio, if_pos h],
    fun h => by rw [refractionRatio, if_neg h], fun hc s hs => ?_⟩
  simp only [Material.scatter, Option.some.injEq] at hs
  rw [← hs]
  simp [if_pos (Or.inl hc)]

/-- Witness for C4 at a concrete total-internal-reflection setup: a back-face
hit (`front_face = False`) with index 2, incoming `(1,0,0)` and normal
`(0,1,0)` gives `ratio * sin_theta = 2 > 1`, so the scattered direction is
the specular reflection regardless of the draw. -/
theorem dielectric_scatter_spec_witness :
    ((Material.dielectric 2).scatter ⟨⟨0, 0, 0⟩, ⟨1, 0, 0⟩⟩
        ⟨⟨0, 0, 0⟩, ⟨0, 1, 0⟩, 0, False, Material.dielectric 2⟩ ⟨0, 0, 0⟩ 0).map
        (fun s => s.scattered.direction) =
      some (reflect (Vec3.normalize ⟨1, 0, 0⟩) ⟨0, 1, 0⟩) := by
  have hratio : refractionRatio False (2 : ℝ) = 2 := by
    rw [refractionRatio, if_neg not_false]
  have hsin : dielSinTheta (Vec3.normalize ⟨1, 0, 0⟩) ⟨0, 1, 0⟩ = 1 := by
    rw [dielSinTheta]
    have hcos : dielCosTheta (Vec3.normalize ⟨1, 0, 0⟩) ⟨0, 1, 0⟩ = 0 := by
      rw [Vec3.normalize_unitX]
      norm_num [dielCosTheta, Vec3.dot]
    rw [hcos]
    norm_num [Real.sqrt_one]
  have hc : cannotRefract (refractionRatio False (2 : ℝ))
      (dielSinTheta (Vec3.normalize ⟨1, 0, 0⟩) ⟨0, 1, 0⟩) := by
    rw [cannotRefract, hratio, hsin]
    norm_num
  obtain ⟨s, hs, _⟩ := (dielectric_scatter_spec 2 ⟨⟨0, 0, 0⟩, ⟨1, 0, 0⟩⟩
    ⟨⟨0, 0, 0⟩, ⟨0, 1, 0⟩, 0, False, Material.dielectric 2⟩ ⟨0, 0, 0⟩ 0).1
  have hdir := (dielectric_scatter_spec 2 ⟨⟨0, 0, 0⟩, ⟨1, 0, 0⟩⟩
    ⟨⟨0, 0, 0⟩, ⟨0, 1, 0⟩, 0, False, Material.dielectric 2⟩ ⟨0, 0, 0⟩ 0).2.2.2 hc s hs
  rw [hs, Option.map_some']
  rw [hdir]

/-- The recursive integrator depends on the scene only through closest-hit
queries at the interval `[0.001, ∞)`. -/
theorem ray_color_world_agree (n : ℕ) :
    ∀ (r : Ray) (depth : ℤ), depth.toNat ≤ n → ∀ (rnd : ℕ → Vec3 × ℝ) (w₁ w₂ : World),
      (∀ q : Ray, w₁ q 0.001 ⊤ = w₂ q 0.001 ⊤) →
      Ray.color r depth w₁ rnd = Ray.color r depth w₂ rnd := by
  induction n with
  | zero =>
    intro r depth hd rnd w₁ w₂ hw
    have h0 : depth ≤ 0 := by omega
    rw [Ray.color, Ray.color]
    simp [h0]
  | succ n ih =>
    intro r depth hd rnd w₁ w₂ hw
    by_cases h0 : depth ≤ 0
    · rw [Ray.color, Ray.color]
      simp [h0]
    · rw [Ray.color, Ray.color]
      simp only [dif_neg h0]
      rw [← hw r]
      cases hm : w₁ r 0.001 ⊤ with
      | none => rfl
      | some hrec =>
        cases hsc : hrec.material.scatter r hrec (rnd 0).1 (rnd 0).2 with
        | none => simp [hsc]
        | some s =>
          have hcol := ih s.scattered (depth - 1) (by omega) (fun k => rnd (k + 1)) w₁ w₂ hw
          simp [hsc, hcol]

/-- C7: with `depth <= 0` the integrator returns black for every scene (the
depth check precedes any scene query), and with positive depth the scene
enters the result only through hit queries on the interval `[0.001, ∞)`. -/
theorem ray_color_depth_check (r : Ray) (depth : ℤ) (rnd : ℕ → Vec3 × ℝ) :
    (∀ world : World, depth ≤ 0 → Ray.color r depth world rnd = ⟨0, 0, 0⟩) ∧
    (0 < depth → ∀ w₁ w₂ : World, (∀ q : Ray, w₁ q 0.001 ⊤ = w₂ q 0.001 ⊤) →
      Ray.color r depth w₁ rnd = Ray.color r depth w₂ rnd) := by
  constructor
  · intro world h
    rw [Ray.color]
    simp [h]
  · intro _ w₁ w₂ hw
    exact ray_color_world_agree depth.toNat r depth (le_refl _) rnd w₁ w₂ hw

/-- Witness for C7: at depth `0` the integrator returns black on a scene
that hits everything (so the depth check must come first). -/
theorem ray_color_depth_check_witness :
    Ray.color ⟨⟨0, 0, 0⟩, ⟨0, 0, 1⟩⟩ 0
      (fun q _ _ => some ⟨q.origin, ⟨0, 0, -1⟩, 1, True, Material.lambertian ⟨1, 1, 1⟩⟩)
      (fun _ => (⟨0, 0, 0⟩, 0)) = ⟨0, 0, 0⟩ :=
  (ray_color_depth_check ⟨⟨0, 0, 0⟩, ⟨0, 0, 1⟩⟩ 0 (fun _ => (⟨0, 0, 0⟩, 0))).1
    (fun q _ _ => some ⟨q.origin, ⟨0, 0, -1⟩, 1, True, Material.lambertian ⟨1, 1, 1⟩⟩)
    (le_refl 0)

theorem Vec3.normalize_unitNegY : (⟨0, -1, 0⟩ : Vec3).normalize = ⟨0, -1, 0⟩ := by
  have h1 : ((⟨0, -1, 0⟩ : Vec3)).lengthSquared = 1 := by
    norm_num [Vec3.lengthSquared, Vec3.dot]
  have h2 : ((⟨0, -1, 0⟩ : Vec3)).length = 1 := by
    rw [Vec3.length, h1, Real.sqrt_one]
  ext <;> simp [Vec3.normalize, h2]

theorem Vec3.normalize_unitY : (⟨0, 1, 0⟩ : Vec3).normalize = ⟨0, 1, 0⟩ := by
  have h1 : ((⟨0, 1, 0⟩ : Vec3)).lengthSquared = 1 := by
    norm_num [Vec3.lengthSquared, Vec3.dot]
  have h2 : ((⟨0, 1, 0⟩ : Vec3)).length = 1 := by
    rw [Vec3.length, h1, Real.sqrt_one]
  ext <;> simp [Vec3.normalize, h2]

/-- C8: on a scene miss (with positive depth) the integrator returns the
vertical gradient `(1-a)*(1,1,1) + a*(0.5,0.7,1.0)` with
`a = 0.5*(unit(direction).y + 1)`; a straight-down ray yields exactly
`(1,1,1)` and a straight-up ray exactly `(0.5,0.7,1.0)`. -/
theorem ray_color_miss_sky (depth : ℤ) (world : World) (rnd : ℕ → Vec3 × ℝ)
    (hd : 0 < depth) :
    (∀ r : Ray, world r 0.001 ⊤ = none →
      Ray.color r depth world rnd =
        (1 - 0.5 * (r.direction.normalize.y + 1)) • (⟨1, 1, 1⟩ : Vec3) +
          (0.5 * (r.direction.normalize.y + 1)) • (⟨0.5, 0.7, 1.0⟩ : Vec3)) ∧
    (∀ o : Vec3, world ⟨o, ⟨0, -1, 0⟩⟩ 0.001 ⊤ = none →
      Ray.color ⟨o, ⟨0, -1, 0⟩⟩ depth world rnd = ⟨1, 1, 1⟩) ∧
    (∀ o : Vec3, world ⟨o, ⟨0, 1, 0⟩⟩ 0.001 ⊤ = none →
      Ray.color ⟨o, ⟨0, 1, 0⟩⟩ depth world rnd = ⟨0.5, 0.7, 1.0⟩) := by
  have hgrad : ∀ r : Ray, world r 0.001 ⊤ = none →
      Ray.color r depth world rnd =
        (1 - 0.5 * (r.direction.normalize.y + 1)) • (⟨1, 1, 1⟩ : Vec3) +
          (0.5 * (r.direction.normalize.y + 1)) • (⟨0.5, 0.7, 1.0⟩ : Vec3) := by
    intro r hmiss
    rw [Ray.color]
    simp [not_le.2 hd, hmiss]
    norm_num
  refine ⟨hgrad, fun o hmiss => ?_, fun o hmiss => ?_⟩
  · rw [hgrad ⟨o, ⟨0, -1, 0⟩⟩ hmiss]
    ext <;> norm_num [Vec3.normalize_unitNegY]
  · rw [hgrad ⟨o, ⟨0, 1, 0⟩⟩ hmiss]
    ext <;> norm_num [Vec3.normalize_unitY]

/-- Witness for C8: a straight-down ray on the empty scene at depth 1 gives
pure white. -/
theorem ray_color_miss_sky_witness :
    Ray.color ⟨⟨0, 0, 0⟩, ⟨0, -1, 0⟩⟩ 1 (fun _ _ _ => none)
      (fun _ => (⟨0, 0, 0⟩, 0)) = ⟨1, 1, 1⟩ :=
  (ray_color_miss_sky 1 (fun _ _ _ => none) (fun _ => (⟨0, 0, 0⟩, 0))
    (by norm_num)).2.1 ⟨0, 0, 0⟩ rfl

/-- C10: the recursive integrator terminates with recursion depth bounded by
`max(depth, 0)`: with that much fuel the fueled variant never runs out and
computes the integrator's value, for every (total) scene and random stream. -/
theorem ray_colorFuel_eq_color (fuel : ℕ) :
    ∀ (r : Ray) (depth : ℤ) (world : World) (rnd : ℕ → Vec3 × ℝ),
      depth.toNat ≤ fuel →
      Ray.colorFuel r fuel depth world rnd = some (Ray.color r depth world rnd) := by
  induction fuel with
  | zero =>
    intro r depth world rnd hd
    have h0 : depth ≤ 0 := by omega
    rw [Ray.colorFuel, Ray.color]
    simp [h0]
  | succ fuel ih =>
    intro r depth world rnd hd
    by_cases h0 : depth ≤ 0
    · rw [Ray.colorFuel, Ray.color]
      simp [h0]
    · rw [Ray.colorFuel, Ray.color]
      simp only [if_neg h0, dif_neg h0]
      cases hm : world r 0.001 ⊤ with
      | none => rfl
      | some hrec =>
        cases hsc : hrec.material.scatter r hrec (rnd 0).1 (rnd 0).2 with
        | none => simp [hsc]
        | some s =>
          have hcol := ih s.scattered (depth - 1) world (fun k => rnd (k + 1)) (by omega)
          simp [hsc, hcol]

/-- Witness for C10: fuel `1` suffices at depth `1` on the empty scene. -/
theorem ray_colorFuel_eq_color_witness :
    Ray.colorFuel ⟨⟨0, 0, 0⟩, ⟨0, -1, 0⟩⟩ 1 1 (fun _ _ _ => none)
      (fun _ => (⟨0, 0, 0⟩, 0)) =
      some (Ray.color ⟨⟨0, 0, 0⟩, ⟨0, -1, 0⟩⟩ 1 (fun _ _ _ => none)
        (fun _ => (⟨0, 0, 0⟩, 0))) :=
  ray_colorFuel_eq_color 1 ⟨⟨0, 0, 0⟩, ⟨0, -1, 0⟩⟩ 1 (fun _ _ _ => none)
    (fun _ => (⟨0, 0, 0⟩, 0)) (by decide)

/-- Counterexample to C9: `Camera::new` does not fail on the invalid input
`image_width = 0` — it produces a camera (with the zero width copied in and
a degenerate `image_height = 0`) instead of rejecting the configuration. -/
theorem camera_new_accepts_invalid :
    (Camera.new 0 (16 / 9) none none none).image_width = 0 ∧
    (Camera.new 0 (16 / 9) none none none).image_height = 0 ∧
    (Camera.new 0 (16 / 9) none none none).samples_per_pixel = 100 := by
  refine ⟨rfl, ?_, rfl⟩
  show f64AsU32 ((0 : ℕ) / (16 / 9 : ℝ)) = 0
  norm_num [f64AsU32]

/-- C9 (amended): `Camera::new` performs no validation at all — for every
input, including zero image width or zero aspect ratio, it returns a camera
whose input fields are copied verbatim (the derived `image_height` is the
saturating `u32` cast of `width / aspect_ratio`, so degenerate inputs
propagate into degenerate derived state instead of being rejected). -/
theorem camera_new_no_validation (image_width : ℕ) (ar : ℝ)
    (look_from look_at vup_opt : Option Vec3) :
    (Camera.new image_width ar look_from look_at vup_opt).image_width = image_width ∧
    (Camera.new image_width ar look_from look_at vup_opt).aspectRatio = ar ∧
    (Camera.new image_width ar look_from look_at vup_opt).image_height =
      f64AsU32 ((image_width : ℝ) / ar) ∧
    (Camera.new image_width ar look_from look_at vup_opt).samples_per_pixel = 100 ∧
    (Camera.new image_width ar look_from look_at vup_opt).max_depth = 50 :=
  ⟨rfl, rfl, rfl, rfl, rfl⟩

end
